import Mathlib

/-!
Shallow embedding of `src/impel_engine.cpp` (namespace `impel`) from the
pienoon repository: the `ImpelEngine` factory registry and per-frame
dispatcher.

Modelling choices, each tied to a line of the source:

* `ImpellerType` is a small integer identifier; it is modelled as `Nat`.
* `ImpelProcessorFunctions` is a pair of opaque function pointers
  `(create, destroy)`.  The model identifies a factory pair by a `Nat`
  (its identity); `create` is modelled as allocation of a fresh handle
  (a C++ `new` returns an address distinct from every live object), and
  each call made through the pointers is recorded in an event trace.
* `std::map` is a strictly key-sorted association list.  `insert` places
  a new pair at its sorted position and keeps the existing entry
  unchanged when the key is already present, exactly as
  `std::map::insert` behaves.
* `ImpelProcessorBase*` handles are `Nat`; the null pointer returned by
  `ImpelEngine::Processor` is `Option.none`.
* The unguarded `function_map_.find(it->first)->second` inside
  `ImpelEngine::Reset` dereferences the result of `find` without a check;
  the model makes that step fallible (`Option`), with `none` standing for
  the undefined dereference of the end iterator.
-/

/-- A processor-type identifier (`ImpellerType`, a small integer value). -/
abbrev ImpellerType := Nat

/-- A live processor handle (`ImpelProcessorBase*` when non-null). -/
abbrev ProcessorHandle := Nat

/-- The identity of a registered `ImpelProcessorFunctions` pair: the pair
of `create`/`destroy` function pointers is opaque, so only its identity
and the calls made through it are observable. -/
abbrev ImpelProcessorFunctions := Nat

/-- Simulation time (`ImpelTime`, an integer tick count). -/
abbrev ImpelTime := Int

/-- One observable call made through a registered function pointer or a
processor virtual: `fns.create()` inside `Processor`, `fns.destroy(p)`
inside `Reset`, and `p->AdvanceFrame(dt)` inside `AdvanceFrame`. -/
inductive Event where
  | created (fns : ImpelProcessorFunctions) (p : ProcessorHandle)
  | destroyed (fns : ImpelProcessorFunctions) (p : ProcessorHandle)
  | advanced (p : ProcessorHandle) (dt : ImpelTime)

deriving instance DecidableEq for Event

/-- `std::map` lookup (`find`): `none` models the end iterator. -/
def mapFind (k : Nat) : List (Nat × α) → Option α
  | [] => none
  | (k', v') :: t => if k = k' then some v' else mapFind k t

/-- `std::map::insert`: place the new pair at its key-sorted position,
keeping the existing entry unchanged when the key is already present. -/
def mapInsert (k : Nat) (v : α) : List (Nat × α) → List (Nat × α)
  | [] => [(k, v)]
  | (k', v') :: t =>
    if k < k' then (k, v) :: (k', v') :: t
    else if k = k' then (k', v') :: t
    else (k', v') :: mapInsert k v t

/-- The engine state: the process-wide registry `function_map_` (the
static `ImpelEngine::FunctionMap`), the per-engine `processors_` map, the
allocator counter for fresh handles, and the trace of observable calls. -/
structure EngineState where
  function_map : List (ImpellerType × ImpelProcessorFunctions)
  processors : List (ImpellerType × ProcessorHandle)
  nextHandle : Nat
  events : List Event

deriving instance DecidableEq for EngineState

/-- `ImpelEngine::RegisterProcessorFactory`:
`function_map_.insert(FunctionPair(type, fns))`. -/
def RegisterProcessorFactory (type : ImpellerType)
    (fns : ImpelProcessorFunctions) (s : EngineState) : EngineState :=
  { s with function_map := mapInsert type fns s.function_map }

/-- The loop of `ImpelEngine::Reset` over `processors_`: for each entry,
look the factory up in `function_map_` and call `fns.destroy(it->second)`.
The lookup is unguarded in the source, so a missing registry entry is the
undefined dereference of the end iterator, modelled as `none`. -/
def destroyAll (fm : List (ImpellerType × ImpelProcessorFunctions)) :
    List (ImpellerType × ProcessorHandle) → Option (List Event)
  | [] => some []
  | p :: t =>
    match mapFind p.1 fm with
    | none => none
    | some fns => (destroyAll fm t).map (fun evs => Event.destroyed fns p.2 :: evs)

/-- `ImpelEngine::Reset`: destroy every owned processor through its
registered factory, then `processors_.clear()`. -/
def Reset (s : EngineState) : Option EngineState :=
  (destroyAll s.function_map s.processors).map
    (fun evs => { s with processors := [], events := s.events ++ evs })

/-- `ImpelEngine::Processor`: return the existing processor if there is
one; otherwise look the type up in `function_map_`, returning `nullptr`
(`none`) if absent; otherwise create a processor with `fns.create()`,
remember it in `processors_`, and return it. -/
def Processor (type : ImpellerType) (s : EngineState) :
    Option ProcessorHandle × EngineState :=
  match mapFind type s.processors with
  | some p => (some p, s)
  | none =>
    match mapFind type s.function_map with
    | none => (none, s)
    | some fns =>
      (some s.nextHandle,
        { s with
            nextHandle := s.nextHandle + 1,
            processors := mapInsert type s.nextHandle s.processors,
            events := s.events ++ [Event.created fns s.nextHandle] })

/-- `ImpelEngine::AdvanceFrame`: call `it->second->AdvanceFrame(delta_time)`
on every `processors_` entry, in map order. -/
def AdvanceFrame (delta_time : ImpelTime) (s : EngineState) : EngineState :=
  { s with
      events := s.events ++
        s.processors.map (fun p => Event.advanced p.2 delta_time) }

/-- One call on the public surface of the engine. -/
inductive Op where
  | register (type : ImpellerType) (fns : ImpelProcessorFunctions)
  | processor (type : ImpellerType)
  | advanceFrame (dt : ImpelTime)
  | reset

deriving instance DecidableEq for Op

/-- Execute one public call.  The handle returned by `processor` is
dropped here; `reset` is the only call that can fail, and only on the
undefined dereference inside `Reset`. -/
def step (s : EngineState) (op : Op) : Option EngineState :=
  match op with
  | .register type fns => some (RegisterProcessorFactory type fns s)
  | .processor type => some (Processor type s).2
  | .advanceFrame dt => some (AdvanceFrame dt s)
  | .reset => Reset s

/-- Execute a sequence of public calls. -/
def run (s : EngineState) : List Op → Option EngineState
  | [] => some s
  | op :: ops =>
    match step s op with
    | none => none
    | some s' => run s' ops

/-- A fresh engine together with an empty registry. -/
def initState : EngineState :=
  { function_map := [], processors := [], nextHandle := 0, events := [] }

/-- Engine states reachable from a fresh engine by public calls. -/
def Reachable (s : EngineState) : Prop :=
  ∃ ops, run initState ops = some s

/-- Structural facts maintained by every public call: both `std::map`s
are strictly key-sorted (hence have unique keys), every owned
processor's type is still registered, and every stored handle was
allocated strictly below the allocator counter. -/
structure EngineInv (s : EngineState) : Prop where
  fm_sorted : List.Chain' (· < ·) (s.function_map.map Prod.fst)
  pr_sorted : List.Chain' (· < ·) (s.processors.map Prod.fst)
  registered : ∀ p ∈ s.processors, (mapFind p.1 s.function_map).isSome
  handle_lt : ∀ p ∈ s.processors, p.2 < s.nextHandle

/-- Looking up a key other than the inserted one is unchanged. -/
theorem mapFind_mapInsert_ne {α : Type} (k k' : Nat) (v : α)
    (m : List (Nat × α)) (h : k ≠ k') :
    mapFind k (mapInsert k' v m) = mapFind k m := by
  induction m with
  | nil => simp [mapInsert, mapFind, h]
  | cons p t ih =>
    obtain ⟨a, b⟩ := p
    by_cases h1 : k' < a
    · simp [mapInsert, mapFind, h1, h]
    · by_cases h2 : k' = a
      · simp [mapInsert, h1, h2]
      · by_cases h3 : k = a
        · simp [mapInsert, mapFind, h1, h2, h3]
        · simp [mapInsert, mapFind, h1, h2, h3, ih]

/-- Inserting an absent key makes it found with the inserted value. -/
theorem mapFind_mapInsert_self {α : Type} (k : Nat) (v : α)
    (m : List (Nat × α)) (h : mapFind k m = none) :
    mapFind k (mapInsert k v m) = some v := by
  induction m with
  | nil => simp [mapInsert, mapFind]
  | cons p t ih =>
    obtain ⟨a, b⟩ := p
    by_cases h3 : k = a
    · simp [mapFind, h3] at h
    · have ht : mapFind k t = none := by simpa [mapFind, h3] using h
      by_cases h1 : k < a
      · simp [mapInsert, mapFind, h1]
      · simp [mapInsert, mapFind, h1, h3, ih ht]

/-- A found key is a member of the key list. -/
theorem mem_of_mapFind_isSome {α : Type} {k : Nat} {m : List (Nat × α)}
    (h : (mapFind k m).isSome) : k ∈ m.map Prod.fst := by
  induction m with
  | nil => simp [mapFind] at h
  | cons p t ih =>
    obtain ⟨a, b⟩ := p
    by_cases hk : k = a
    · simp [hk]
    · have := ih (by simpa [mapFind, hk] using h)
      simp [this]

/-- On a key-sorted map, inserting an already-present key changes
nothing: this is exactly the `std::map::insert` no-overwrite rule. -/
theorem mapInsert_eq_self {α : Type} {k : Nat} (v : α) {m : List (Nat × α)}
    (hs : List.Chain' (· < ·) (m.map Prod.fst))
    (h : (mapFind k m).isSome) : mapInsert k v m = m := by
  induction m with
  | nil => simp [mapFind] at h
  | cons p t ih =>
    obtain ⟨a, b⟩ := p
    rw [List.map_cons] at hs
    by_cases h2 : k = a
    · have h1 : ¬ k < a := by omega
      simp [mapInsert, h1, h2]
    · have hfind : (mapFind k t).isSome := by simpa [mapFind, h2] using h
      have hmem := mem_of_mapFind_isSome hfind
      have hpair := List.chain'_iff_pairwise.mp hs
      have halt : a < k := (List.pairwise_cons.mp hpair).1 _ hmem
      have h1 : ¬ k < a := by omega
      simp [mapInsert, h1, h2, ih hs.tail hfind]

/-- Insertion never makes an existing key unfindable. -/
theorem mapFind_isSome_mapInsert {α : Type} (k k' : Nat) (v : α)
    (m : List (Nat × α)) (h : (mapFind k m).isSome) :
    (mapFind k (mapInsert k' v m)).isSome := by
  induction m with
  | nil => simp [mapFind] at h
  | cons p t ih =>
    obtain ⟨a, b⟩ := p
    by_cases h1 : k' < a
    · by_cases hk : k = k'
      · simp [mapInsert, h1, mapFind, hk]
      · simpa [mapInsert, h1, mapFind, hk] using h
    · by_cases h2 : k' = a
      · simpa [mapInsert, h1, h2] using h
      · by_cases hk : k = a
        · simp [mapInsert, h1, h2, mapFind, hk]
        · have := ih (by simpa [mapFind, hk] using h)
          simp [mapInsert, h1, h2, mapFind, hk, this]

/-- The head key of an insertion into a tail stays above a lower bound. -/
theorem mapInsert_head_lt {α : Type} (a k : Nat) (v : α)
    (t : List (Nat × α)) (hak : a < k)
    (hhead : ∀ x ∈ ((t.map Prod.fst).head?), a < x) :
    ∀ x ∈ (((mapInsert k v t).map Prod.fst).head?), a < x := by
  cases t with
  | nil => simpa [mapInsert] using hak
  | cons p t' =>
    obtain ⟨c, d⟩ := p
    by_cases h1 : k < c
    · simpa [mapInsert, h1] using hak
    · by_cases h2 : k = c
      · simpa [mapInsert, h1, h2] using hhead
      · simpa [mapInsert, h1, h2] using hhead

/-- `mapInsert` preserves strict key-sortedness. -/
theorem mapInsert_sorted {α : Type} (k : Nat) (v : α) (m : List (Nat × α))
    (hs : List.Chain' (· < ·) (m.map Prod.fst)) :
    List.Chain' (· < ·) ((mapInsert k v m).map Prod.fst) := by
  induction m with
  | nil => simp [mapInsert]
  | cons p t ih =>
    obtain ⟨a, b⟩ := p
    rw [List.map_cons] at hs
    by_cases h1 : k < a
    · simp [mapInsert, h1, List.chain'_cons, hs]
    · by_cases h2 : k = a
      · simpa [mapInsert, h1, h2] using hs
      · have hak : a < k := by omega
        obtain ⟨hhead, htail⟩ := List.chain'_cons'.mp hs
        simp only [mapInsert, h1, h2, if_false, List.map_cons]
        exact List.chain'_cons'.mpr
          ⟨mapInsert_head_lt a k v t hak hhead, ih htail⟩

/-- A strictly sorted key list has no duplicates. -/
theorem nodup_of_chain_lt {l : List Nat}
    (h : List.Chain' (· < ·) l) : l.Nodup :=
  (List.chain'_iff_pairwise.mp h).imp Nat.ne_of_lt

/-- The `Reset` loop succeeds exactly when every processor's type is
still registered, and then produces one `destroyed` event per entry,
built from the registered factory of that entry's type. -/
theorem destroyAll_forall₂
    (fm : List (ImpellerType × ImpelProcessorFunctions))
    (l : List (ImpellerType × ProcessorHandle)) (evs : List Event)
    (h : destroyAll fm l = some evs) :
    List.Forall₂
      (fun p e => ∃ fns, mapFind p.1 fm = some fns ∧
        e = Event.destroyed fns p.2) l evs := by
  induction l generalizing evs with
  | nil =>
    simp only [destroyAll, Option.some.injEq] at h
    subst h
    exact List.Forall₂.nil
  | cons p t ih =>
    unfold destroyAll at h
    cases hf : mapFind p.1 fm with
    | none => rw [hf] at h; cases h
    | some fns =>
      rw [hf] at h
      cases hd : destroyAll fm t with
      | none => rw [hd] at h; cases h
      | some evs' =>
        rw [hd] at h
        simp only [Option.map_some', Option.some.injEq] at h
        subst h
        exact List.Forall₂.cons ⟨fns, hf, rfl⟩ (ih _ hd)

/-- The `Reset` loop cannot hit the end iterator when every owned
processor's type has a registry entry. -/
theorem destroyAll_isSome
    (fm : List (ImpellerType × ImpelProcessorFunctions))
    (l : List (ImpellerType × ProcessorHandle))
    (h : ∀ p ∈ l, (mapFind p.1 fm).isSome) :
    (destroyAll fm l).isSome := by
  induction l with
  | nil => simp [destroyAll]
  | cons p t ih =>
    have hp := h p (by simp)
    cases hf : mapFind p.1 fm with
    | none => rw [hf] at hp; cases hp
    | some fns =>
      have ht := ih (fun q hq => h q (by simp [hq]))
      cases hd : destroyAll fm t with
      | none => rw [hd] at ht; cases ht
      | some evs' => simp [destroyAll, hf, hd]

/-- C2: for a type with no registry entry and no existing instance,
`Processor` returns null and leaves the whole state (instances map and
registry included) unchanged; repeatability is immediate because the
state is returned identically. -/
theorem impel_C2_unregistered_null (s : EngineState) (U : ImpellerType)
    (hfm : mapFind U s.function_map = none)
    (hpr : mapFind U s.processors = none) :
    Processor U s = (none, s) := by
  unfold Processor
  rw [hpr, hfm]

/-- C2 witness: a concrete unregistered type on the fresh engine. -/
theorem impel_C2_witness :
    mapFind 5 initState.function_map = none ∧
    mapFind 5 initState.processors = none ∧
    Processor 5 initState = (none, initState) :=
  ⟨rfl, rfl, impel_C2_unregistered_null initState 5 rfl rfl⟩

/-- C4: `AdvanceFrame` calls the advance operation of every owned
processor exactly once, passing `delta_time` through unmodified, and
changes nothing else: the instances map, registry and allocator are
untouched, and the appended events are exactly one `advanced` per entry. -/
theorem impel_C4_advance_each_once (dt : ImpelTime) (s : EngineState) :
    (AdvanceFrame dt s).processors = s.processors ∧
    (AdvanceFrame dt s).function_map = s.function_map ∧
    (AdvanceFrame dt s).nextHandle = s.nextHandle ∧
    ∃ evs, (AdvanceFrame dt s).events = s.events ++ evs ∧
      List.Forall₂ (fun p e => e = Event.advanced p.2 dt)
        s.processors evs := by
  refine ⟨rfl, rfl, rfl,
    s.processors.map (fun p => Event.advanced p.2 dt), ?_, ?_⟩
  · simp [AdvanceFrame]
  · exact List.forall₂_map_right_iff.mpr
      (List.forall₂_same.mpr (fun x _ => rfl))

/-- C7: a `Processor` call never removes or replaces an existing
instances entry, and its only possible mutation of the map is the
insertion of one new entry keyed by the requested type. -/
theorem impel_C7_insert_only (s : EngineState) (type t' : ImpellerType)
    (h' : ProcessorHandle) (hfind : mapFind t' s.processors = some h') :
    mapFind t' ((Processor type s).2).processors = some h' ∧
    (((Processor type s).2).processors = s.processors ∨
      ∃ h, mapFind type s.processors = none ∧
        ((Processor type s).2).processors =
          mapInsert type h s.processors) := by
  cases hp : mapFind type s.processors with
  | some p =>
    constructor
    · simpa [Processor, hp] using hfind
    · left
      simp [Processor, hp]
  | none =>
    cases hf : mapFind type s.function_map with
    | none =>
      constructor
      · simpa [Processor, hp, hf] using hfind
      · left
        simp [Processor, hp, hf]
    | some fns =>
      have hne : t' ≠ type := by
        intro e
        rw [e, hp] at hfind
        cases hfind
      constructor
      · simp only [Processor, hp, hf]
        rw [mapFind_mapInsert_ne _ _ _ _ hne]
        exact hfind
      · right
        refine ⟨s.nextHandle, rfl, ?_⟩
        simp [Processor, hp, hf]

/-- C7 witness: on a concrete engine owning type 1, requesting type 2
keeps type 1's entry intact. -/
theorem impel_C7_witness :
    mapFind 1 (⟨[(1, 10), (2, 11)], [(1, 7)], 8, []⟩ :
        EngineState).processors = some 7 ∧
    mapFind 1 ((Processor 2
        (⟨[(1, 10), (2, 11)], [(1, 7)], 8, []⟩ :
          EngineState)).2).processors = some 7 :=
  ⟨rfl, (impel_C7_insert_only ⟨[(1, 10), (2, 11)], [(1, 7)], 8, []⟩
      2 1 7 rfl).1⟩

/-- C3: a successful `Reset` empties the instances map, leaves the
registry and allocator alone, and emits exactly one `destroyed` event
per owned entry, built from the factory registered for that entry's
type and applied to that entry's handle; on an engine owning nothing,
`Reset` succeeds and is the identity. -/
theorem impel_C3_reset_destroys_each_once (s : EngineState) :
    (∀ s', Reset s = some s' →
      s'.processors = [] ∧ s'.function_map = s.function_map ∧
      s'.nextHandle = s.nextHandle ∧
      ∃ evs, s'.events = s.events ++ evs ∧
        List.Forall₂
          (fun p e => ∃ fns, mapFind p.1 s.function_map = some fns ∧
            e = Event.destroyed fns p.2) s.processors evs) ∧
    (s.processors = [] → Reset s = some s) := by
  constructor
  · intro s' hs'
    unfold Reset at hs'
    cases hd : destroyAll s.function_map s.processors with
    | none => rw [hd] at hs'; cases hs'
    | some evs =>
      rw [hd] at hs'
      simp only [Option.map_some', Option.some.injEq] at hs'
      subst hs'
      exact ⟨rfl, rfl, rfl, evs, rfl, destroyAll_forall₂ _ _ _ hd⟩
  · intro hpr
    obtain ⟨fm, pr, nh, ev⟩ := s
    simp only at hpr
    subst hpr
    simp [Reset, destroyAll]

/-- C3 witness: a concrete engine owning one processor is reset with
exactly one matching destroy call, and the fresh engine resets to
itself. -/
theorem impel_C3_witness :
    Reset ⟨[(1, 10)], [(1, 7)], 8, []⟩ =
      some ⟨[(1, 10)], [], 8, [Event.destroyed 10 7]⟩ ∧
    (⟨[(1, 10)], [], 8, [Event.destroyed 10 7]⟩ :
      EngineState).processors = [] ∧
    Reset initState = some initState :=
  ⟨by decide,
    ((impel_C3_reset_destroys_each_once ⟨[(1, 10)], [(1, 7)], 8, []⟩).1
      ⟨[(1, 10)], [], 8, [Event.destroyed 10 7]⟩ (by decide)).1,
    (impel_C3_reset_destroys_each_once initState).2 rfl⟩

/-- C5 counterexample: registering type 0 first with factory 1 and then
with factory 2 does not make the lookup yield the second factory, so
the duplicate call does not overwrite. -/
theorem impel_C5_counterexample :
    mapFind 0 (RegisterProcessorFactory 0 2
      (RegisterProcessorFactory 0 1 initState)).function_map ≠
      some 2 := by decide

/-- C5 amended: a second `RegisterProcessorFactory` call for a type
identifier already present in the (key-sorted) registry is silently
ignored: a subsequent lookup still yields the first call's factory
operations. -/
theorem impel_C5_duplicate_register_keeps_first (s : EngineState)
    (t : ImpellerType) (fns fns' : ImpelProcessorFunctions)
    (hs : List.Chain' (· < ·) (s.function_map.map Prod.fst))
    (hreg : mapFind t s.function_map = some fns) :
    mapFind t (RegisterProcessorFactory t fns' s).function_map =
      some fns := by
  unfold RegisterProcessorFactory
  have hsome : (mapFind t s.function_map).isSome := by
    rw [hreg]; rfl
  simp only
  rw [mapInsert_eq_self fns' hs hsome]
  exact hreg

/-- C5 witness: re-registering type 3 keeps factory 7. -/
theorem impel_C5_witness :
    List.Chain' (· < ·)
      ((⟨[(3, 7)], [], 0, []⟩ : EngineState).function_map.map
        Prod.fst) ∧
    mapFind 3 (⟨[(3, 7)], [], 0, []⟩ :
      EngineState).function_map = some 7 ∧
    mapFind 3 (RegisterProcessorFactory 3 9
      (⟨[(3, 7)], [], 0, []⟩ : EngineState)).function_map = some 7 :=
  ⟨by simp, rfl,
    impel_C5_duplicate_register_keeps_first
      ⟨[(3, 7)], [], 0, []⟩ 3 7 9 (by simp) rfl⟩

/-- C10: a duplicate `RegisterProcessorFactory` call on a (key-sorted)
registry that already holds the type leaves the whole state — and in
particular the registry entry with its originally registered factory
pair — completely unchanged. -/
theorem impel_C10_duplicate_register_noop (s : EngineState)
    (t : ImpellerType) (fns' : ImpelProcessorFunctions)
    (hs : List.Chain' (· < ·) (s.function_map.map Prod.fst))
    (hreg : (mapFind t s.function_map).isSome) :
    RegisterProcessorFactory t fns' s = s := by
  unfold RegisterProcessorFactory
  rw [mapInsert_eq_self fns' hs hreg]

/-- C10 witness: re-registering type 2 with a new factory on a registry
holding types 2 and 4 changes nothing. -/
theorem impel_C10_witness :
    List.Chain' (· < ·)
      ((⟨[(2, 5), (4, 6)], [], 0, []⟩ : EngineState).function_map.map
        Prod.fst) ∧
    (mapFind 2 (⟨[(2, 5), (4, 6)], [], 0, []⟩ :
      EngineState).function_map).isSome ∧
    RegisterProcessorFactory 2 9
        (⟨[(2, 5), (4, 6)], [], 0, []⟩ : EngineState) =
      ⟨[(2, 5), (4, 6)], [], 0, []⟩ :=
  ⟨by simp, by decide,
    impel_C10_duplicate_register_noop
      ⟨[(2, 5), (4, 6)], [], 0, []⟩ 2 9 (by simp) (by decide)⟩

/-- A found binding is a member of the association list. -/
theorem mapFind_mem {α : Type} {k : Nat} {v : α} {m : List (Nat × α)}
    (h : mapFind k m = some v) : (k, v) ∈ m := by
  induction m with
  | nil => cases h
  | cons p t ih =>
    obtain ⟨a, b⟩ := p
    by_cases hk : k = a
    · simp only [mapFind, if_pos hk] at h
      simp [hk, Option.some.inj h]
    · have := ih (by simpa [mapFind, hk] using h)
      simp [this]

/-- Every member of an insertion is the new pair or an old member. -/
theorem mem_mapInsert {α : Type} {p : Nat × α} {k : Nat} {v : α}
    {m : List (Nat × α)} (h : p ∈ mapInsert k v m) :
    p = (k, v) ∨ p ∈ m := by
  induction m with
  | nil => simpa [mapInsert] using h
  | cons q t ih =>
    obtain ⟨a, b⟩ := q
    by_cases h1 : k < a
    · simp only [mapInsert, if_pos h1, List.mem_cons] at h
      rcases h with h | h | h
      · exact Or.inl h
      · exact Or.inr (by simp [h])
      · exact Or.inr (by simp [h])
    · by_cases h2 : k = a
      · simp only [mapInsert, if_neg h1, if_pos h2, List.mem_cons] at h
        rcases h with h | h
        · exact Or.inr (by simp [h])
        · exact Or.inr (by simp [h])
      · simp only [mapInsert, if_neg h1, if_neg h2, List.mem_cons] at h
        rcases h with h | h
        · exact Or.inr (by simp [h])
        · rcases ih h with h | h
          · exact Or.inl h
          · exact Or.inr (by simp [h])

/-- The fresh engine satisfies the invariant. -/
theorem EngineInv_init : EngineInv initState :=
  ⟨by simp [initState], by simp [initState],
    by simp [initState], by simp [initState]⟩

/-- One public call preserves the invariant. -/
theorem EngineInv_step {s s' : EngineState} {op : Op}
    (h : step s op = some s') (hinv : EngineInv s) : EngineInv s' := by
  cases op with
  | register type fns =>
    simp only [step, Option.some.injEq] at h
    subst h
    refine ⟨mapInsert_sorted _ _ _ hinv.fm_sorted, hinv.pr_sorted,
      ?_, hinv.handle_lt⟩
    intro p hp
    exact mapFind_isSome_mapInsert _ _ _ _ (hinv.registered p hp)
  | advanceFrame dt =>
    simp only [step, Option.some.injEq] at h
    subst h
    exact ⟨hinv.fm_sorted, hinv.pr_sorted, hinv.registered,
      hinv.handle_lt⟩
  | reset =>
    simp only [step] at h
    unfold Reset at h
    cases hd : destroyAll s.function_map s.processors with
    | none => rw [hd] at h; cases h
    | some evs =>
      rw [hd] at h
      simp only [Option.map_some', Option.some.injEq] at h
      subst h
      exact ⟨hinv.fm_sorted, by simp, by simp, by simp⟩
  | processor type =>
    simp only [step, Option.some.injEq] at h
    subst h
    cases hp : mapFind type s.processors with
    | some p =>
      simp only [Processor, hp]
      exact hinv
    | none =>
      cases hf : mapFind type s.function_map with
      | none =>
        simp only [Processor, hp, hf]
        exact hinv
      | some fns =>
        simp only [Processor, hp, hf]
        refine ⟨hinv.fm_sorted,
          mapInsert_sorted _ _ _ hinv.pr_sorted, ?_, ?_⟩
        · intro p hp'
          rcases mem_mapInsert hp' with h | h
          · subst h
            simp [hf]
          · exact hinv.registered p h
        · intro p hp'
          rcases mem_mapInsert hp' with h | h
          · subst h
            simp
          · exact Nat.lt_trans (hinv.handle_lt p h) (Nat.lt_succ_self _)

/-- A run of public calls preserves the invariant. -/
theorem EngineInv_run {s s' : EngineState} {ops : List Op}
    (h : run s ops = some s') (hinv : EngineInv s) : EngineInv s' := by
  induction ops generalizing s with
  | nil =>
    simp only [run, Option.some.injEq] at h
    subst h
    exact hinv
  | cons op ops ih =>
    simp only [run] at h
    cases hs : step s op with
    | none => rw [hs] at h; cases h
    | some s1 =>
      rw [hs] at h
      exact ih h (EngineInv_step hs hinv)

/-- Every reachable engine state satisfies the invariant. -/
theorem Reachable_inv {s : EngineState} (h : Reachable s) : EngineInv s := by
  obtain ⟨ops, hops⟩ := h
  exact EngineInv_run hops EngineInv_init

/-- C9: in every reachable engine state, every type that owns an
instance also has a registry entry, so the unguarded registry lookup
inside `Reset` never yields the end iterator and `Reset` always
succeeds. -/
theorem impel_C9_reset_lookup_safe (s : EngineState) (h : Reachable s) :
    (∀ p ∈ s.processors, (mapFind p.1 s.function_map).isSome) ∧
    (Reset s).isSome := by
  have hinv := Reachable_inv h
  refine ⟨hinv.registered, ?_⟩
  have hall := destroyAll_isSome s.function_map s.processors
    hinv.registered
  unfold Reset
  cases hd : destroyAll s.function_map s.processors with
  | none => rw [hd] at hall; cases hall
  | some evs => simp [hd]

/-- C9 witness: a concrete reachable engine owning one processor, whose
`Reset` succeeds. -/
theorem impel_C9_witness :
    Reachable ⟨[(1, 10)], [(1, 0)], 1, [Event.created 10 0]⟩ ∧
    (Reset ⟨[(1, 10)], [(1, 0)], 1, [Event.created 10 0]⟩).isSome :=
  ⟨⟨[Op.register 1 10, Op.processor 1], by decide⟩,
    (impel_C9_reset_lookup_safe _
      ⟨[Op.register 1 10, Op.processor 1], by decide⟩).2⟩

/-- Between public calls that are not `Reset`, an owned instance entry
survives with its handle unchanged. -/
theorem mapFind_processors_preserved {t : ImpellerType}
    {h : ProcessorHandle} {s s' : EngineState} {ops : List Op}
    (hnr : Op.reset ∉ ops) (hrun : run s ops = some s')
    (hfind : mapFind t s.processors = some h) :
    mapFind t s'.processors = some h := by
  induction ops generalizing s with
  | nil =>
    simp only [run, Option.some.injEq] at hrun
    subst hrun
    exact hfind
  | cons op ops ih =>
    have hop : op ≠ Op.reset := fun e => hnr (by simp [e])
    have hnr' : Op.reset ∉ ops := fun e => hnr (by simp [e])
    simp only [run] at hrun
    cases hs : step s op with
    | none => rw [hs] at hrun; cases hrun
    | some s1 =>
      rw [hs] at hrun
      refine ih hnr' hrun ?_
      cases op with
      | register type fns =>
        simp only [step, Option.some.injEq] at hs
        subst hs
        exact hfind
      | advanceFrame dt =>
        simp only [step, Option.some.injEq] at hs
        subst hs
        exact hfind
      | reset => exact absurd rfl hop
      | processor type =>
        simp only [step, Option.some.injEq] at hs
        subst hs
        cases hp : mapFind type s.processors with
        | some p => simpa [Processor, hp] using hfind
        | none =>
          cases hf : mapFind type s.function_map with
          | none => simpa [Processor, hp, hf] using hfind
          | some fns =>
            have hne : t ≠ type := by
              intro e
              rw [e, hp] at hfind
              cases hfind
            simp only [Processor, hp, hf]
            rw [mapFind_mapInsert_ne _ _ _ _ hne]
            exact hfind

/-- C1: once a type is registered, `Processor` returns a non-null
handle, and after that first call every later `Processor` call for the
type — with any sequence of calls other than `Reset` in between —
returns the identical handle and leaves the state untouched, so no new
instance is constructed. -/
theorem impel_C1_processor_identity (s : EngineState) (T : ImpellerType)
    (hreg : (mapFind T s.function_map).isSome) :
    ((Processor T s).1).isSome ∧
    ∀ ops s₂, Op.reset ∉ ops → run (Processor T s).2 ops = some s₂ →
      Processor T s₂ = ((Processor T s).1, s₂) := by
  cases hp : mapFind T s.processors with
  | some p =>
    have h1 : Processor T s = (some p, s) := by simp [Processor, hp]
    constructor
    · rw [h1]
      rfl
    · intro ops s₂ hnr hrun
      rw [h1] at hrun ⊢
      have hk := mapFind_processors_preserved hnr hrun hp
      simp [Processor, hk]
  | none =>
    cases hf : mapFind T s.function_map with
    | none => rw [hf] at hreg; cases hreg
    | some fns =>
      have h1 : (Processor T s).1 = some s.nextHandle := by
        simp [Processor, hp, hf]
      have h2 : mapFind T ((Processor T s).2).processors =
          some s.nextHandle := by
        simp only [Processor, hp, hf]
        exact mapFind_mapInsert_self _ _ _ hp
      constructor
      · rw [h1]
        rfl
      · intro ops s₂ hnr hrun
        have hk := mapFind_processors_preserved hnr hrun h2
        rw [h1]
        simp [Processor, hk]

/-- C1 witness: registering type 1 then obtaining its processor, an
`AdvanceFrame` later the second `Processor` call returns the same
handle 0 and changes nothing. -/
theorem impel_C1_witness :
    (mapFind 1 (⟨[(1, 10)], [], 0, []⟩ :
      EngineState).function_map).isSome ∧
    Op.reset ∉ [Op.advanceFrame 16] ∧
    run (Processor 1 ⟨[(1, 10)], [], 0, []⟩).2 [Op.advanceFrame 16] =
      some ⟨[(1, 10)], [(1, 0)], 1,
        [Event.created 10 0, Event.advanced 0 16]⟩ ∧
    Processor 1 ⟨[(1, 10)], [(1, 0)], 1,
        [Event.created 10 0, Event.advanced 0 16]⟩ =
      (some 0, ⟨[(1, 10)], [(1, 0)], 1,
        [Event.created 10 0, Event.advanced 0 16]⟩) := by
  refine ⟨by decide, by decide, by decide, ?_⟩
  have h := (impel_C1_processor_identity ⟨[(1, 10)], [], 0, []⟩ 1
      (by decide)).2 [Op.advanceFrame 16]
    ⟨[(1, 10)], [(1, 0)], 1, [Event.created 10 0, Event.advanced 0 16]⟩
    (by decide) (by decide)
  exact h.trans (by decide)

/-- C6: for a type that owned a handle before a `Reset`, the
`Processor` call made right after the `Reset` goes through the
registered construct function — appending a `created` event that
carries the factory registered for that type — and returns a non-null
handle distinct from the pre-reset one. -/
theorem impel_C6_new_instance_after_reset (s s' : EngineState)
    (T : ImpellerType) (h : ProcessorHandle)
    (hreach : Reachable s) (hfind : mapFind T s.processors = some h)
    (hreset : Reset s = some s') :
    ∃ fns h', mapFind T s.function_map = some fns ∧
      (Processor T s').1 = some h' ∧ h' ≠ h ∧
      (Processor T s').2.events = s'.events ++ [Event.created fns h'] := by
  have hinv := Reachable_inv hreach
  have hmem := mapFind_mem hfind
  obtain ⟨fns, hf⟩ :=
    Option.isSome_iff_exists.mp (hinv.registered (T, h) hmem)
  have hlt : h < s.nextHandle := hinv.handle_lt (T, h) hmem
  unfold Reset at hreset
  cases hd : destroyAll s.function_map s.processors with
  | none => rw [hd] at hreset; cases hreset
  | some evs =>
    rw [hd] at hreset
    simp only [Option.map_some', Option.some.injEq] at hreset
    subst hreset
    refine ⟨fns, s.nextHandle, hf, ?_, Nat.ne_of_gt hlt, ?_⟩
    · simp [Processor, mapFind, hf]
    · simp [Processor, mapFind, hf]

/-- C6 witness: after resetting an engine that owned handle 0 for
type 1, the next `Processor(1)` call does not return handle 0. -/
theorem impel_C6_witness :
    Reachable ⟨[(1, 10)], [(1, 0)], 1, [Event.created 10 0]⟩ ∧
    mapFind 1 (⟨[(1, 10)], [(1, 0)], 1, [Event.created 10 0]⟩ :
      EngineState).processors = some 0 ∧
    Reset ⟨[(1, 10)], [(1, 0)], 1, [Event.created 10 0]⟩ =
      some ⟨[(1, 10)], [], 1,
        [Event.created 10 0, Event.destroyed 10 0]⟩ ∧
    (Processor 1 ⟨[(1, 10)], [], 1,
      [Event.created 10 0, Event.destroyed 10 0]⟩).1 ≠ some 0 := by
  refine ⟨⟨[Op.register 1 10, Op.processor 1], by decide⟩, rfl,
    by decide, ?_⟩
  obtain ⟨fns, h', hf, hp, hne, hev⟩ :=
    impel_C6_new_instance_after_reset
      ⟨[(1, 10)], [(1, 0)], 1, [Event.created 10 0]⟩
      ⟨[(1, 10)], [], 1, [Event.created 10 0, Event.destroyed 10 0]⟩
      1 0 ⟨[Op.register 1 10, Op.processor 1], by decide⟩ rfl
      (by decide)
  rw [hp]
  intro hcontra
  exact hne (Option.some.inj hcontra)

/-- Running an appended sequence is running the pieces in order. -/
theorem run_append (s : EngineState) (l₁ l₂ : List Op) :
    run s (l₁ ++ l₂) = (run s l₁).bind (fun s' => run s' l₂) := by
  induction l₁ generalizing s with
  | nil => simp [run]
  | cons op t ih =>
    simp only [List.cons_append, run]
    cases step s op with
    | none => rfl
    | some s1 => exact ih s1

/-- Decomposing a list with a distinguished element against a final
appended element: the element is the last one, or sits in the front
part. -/
theorem snoc_eq_append_cons {α : Type} {l pre post : List α} {a x : α} :
    l ++ [a] = pre ++ x :: post ↔
      (post = [] ∧ pre = l ∧ x = a) ∨
      ∃ post', post = post' ++ [a] ∧ l = pre ++ x :: post' := by
  constructor
  · intro h
    rcases List.eq_nil_or_concat post with hpost | ⟨post', b, hpost⟩
    · subst hpost
      obtain ⟨h1, h2⟩ := List.append_inj' h rfl
      refine Or.inl ⟨rfl, h1.symm, ?_⟩
      simpa using h2.symm
    · subst hpost
      simp only [List.concat_eq_append] at h ⊢
      rw [show x :: (post' ++ [b]) = (x :: post') ++ [b] from rfl,
        ← List.append_assoc] at h
      obtain ⟨h1, h2⟩ := List.append_inj' h rfl
      have hab : a = b := by simpa using h2
      subst hab
      exact Or.inr ⟨post', rfl, h1⟩
  · rintro (⟨rfl, rfl, rfl⟩ | ⟨post', rfl, rfl⟩)
    · rfl
    · simp

/-- How one `Processor` call changes whether a type owns an instance:
for the requested type it becomes (or stays) owned exactly when the
call returns non-null, and for any other type nothing changes. -/
theorem processor_isSome_after (t t' : ImpellerType) (s₁ : EngineState) :
    (mapFind t ((Processor t' s₁).2).processors).isSome ↔
      ((t' = t ∧ ((Processor t s₁).1).isSome) ∨
        (mapFind t s₁.processors).isSome) := by
  by_cases ht : t' = t
  · subst ht
    cases hp : mapFind t' s₁.processors with
    | some p => simp [Processor, hp]
    | none =>
      cases hf : mapFind t' s₁.function_map with
      | none => simp [Processor, hp, hf]
      | some fns =>
        simp [Processor, hp, hf, mapFind_mapInsert_self _ _ _ hp]
  · cases hp : mapFind t' s₁.processors with
    | some p => simp [Processor, hp, ht]
    | none =>
      cases hf : mapFind t' s₁.function_map with
      | none => simp [Processor, hp, hf, ht]
      | some fns =>
        have hne : mapFind t (mapInsert t' s₁.nextHandle s₁.processors) =
            mapFind t s₁.processors :=
          mapFind_mapInsert_ne _ _ _ _ (fun e => ht e.symm)
        simp [Processor, hp, hf, ht, hne]

/-- Unfolding "a successful `Processor(t)` call with no later `Reset`"
over a final appended call. -/
theorem success_since_reset_snoc (l : List Op) (op : Op)
    (t : ImpellerType) (s₁ : EngineState)
    (hr1 : run initState l = some s₁) :
    (∃ pre post, l ++ [op] = pre ++ Op.processor t :: post ∧
        Op.reset ∉ post ∧
        ∃ s₀, run initState pre = some s₀ ∧
          ((Processor t s₀).1).isSome) ↔
      ((op = Op.processor t ∧ ((Processor t s₁).1).isSome) ∨
        (op ≠ Op.reset ∧
          ∃ pre post, l = pre ++ Op.processor t :: post ∧
            Op.reset ∉ post ∧
            ∃ s₀, run initState pre = some s₀ ∧
              ((Processor t s₀).1).isSome)) := by
  constructor
  · rintro ⟨pre, post, heq, hnr, s₀, hpre, hsome⟩
    rcases snoc_eq_append_cons.mp heq with
      ⟨hpost, hpre', hx⟩ | ⟨post', hpost, hl⟩
    · subst hpre'
      refine Or.inl ⟨hx.symm, ?_⟩
      rw [hpre] at hr1
      rwa [Option.some.inj hr1] at hsome
    · have hop : op ≠ Op.reset := by
        intro e
        apply hnr
        rw [hpost, e]
        simp
      refine Or.inr ⟨hop, pre, post', hl, ?_, s₀, hpre, hsome⟩
      intro hmem
      exact hnr (by rw [hpost]; simp [hmem])
  · rintro (⟨rfl, hsome⟩ | ⟨hop, pre, post, rfl, hnr, s₀, hpre, hsome⟩)
    · exact ⟨l, [], rfl, by simp, s₁, hr1, hsome⟩
    · refine ⟨pre, post ++ [op], by simp, ?_, s₀, hpre, hsome⟩
      intro hmem
      rcases List.mem_append.mp hmem with hmem | hmem
      · exact hnr hmem
      · simp only [List.mem_singleton] at hmem
        exact hop hmem.symm

/-- The instances map holds the type `t` exactly when some `Processor(t)`
call returned non-null with no `Reset` afterwards. -/
theorem processors_isSome_iff_success (ops : List Op)
    (t : ImpellerType) :
    ∀ s, run initState ops = some s →
      ((mapFind t s.processors).isSome ↔
        ∃ pre post, ops = pre ++ Op.processor t :: post ∧
          Op.reset ∉ post ∧
          ∃ s₀, run initState pre = some s₀ ∧
            ((Processor t s₀).1).isSome) := by
  induction ops using List.reverseRecOn with
  | nil =>
    intro s hrun
    simp only [run, Option.some.injEq] at hrun
    subst hrun
    constructor
    · intro h
      simp [initState, mapFind] at h
    · rintro ⟨pre, post, habs, -⟩
      rcases pre with - | ⟨y, pre⟩ <;> cases habs
  | append_singleton l op ih =>
    intro s hrun
    rw [run_append] at hrun
    cases hr1 : run initState l with
    | none => rw [hr1] at hrun; cases hrun
    | some s₁ =>
      rw [hr1] at hrun
      have hrun' : run s₁ [op] = some s := hrun
      simp only [run] at hrun'
      cases hstep₀ : step s₁ op with
      | none => rw [hstep₀] at hrun'; cases hrun'
      | some s₂ =>
      rw [hstep₀] at hrun'
      have hs2 : s₂ = s := Option.some.inj hrun'
      subst hs2
      have hstep : step s₁ op = some s₂ := hstep₀
      rw [success_since_reset_snoc l op t s₁ hr1]
      have hih := ih s₁ hr1
      cases op with
      | register ty fns =>
        simp only [step, Option.some.injEq] at hstep
        subst hstep
        rw [show (RegisterProcessorFactory ty fns s₁).processors =
          s₁.processors from rfl, hih]
        constructor
        · intro h
          exact Or.inr ⟨by simp, h⟩
        · rintro (⟨habs, -⟩ | ⟨-, h⟩)
          · exact Op.noConfusion habs
          · exact h
      | advanceFrame dt =>
        simp only [step, Option.some.injEq] at hstep
        subst hstep
        rw [show (AdvanceFrame dt s₁).processors =
          s₁.processors from rfl, hih]
        constructor
        · intro h
          exact Or.inr ⟨by simp, h⟩
        · rintro (⟨habs, -⟩ | ⟨-, h⟩)
          · exact Op.noConfusion habs
          · exact h
      | reset =>
        simp only [step] at hstep
        unfold Reset at hstep
        cases hd : destroyAll s₁.function_map s₁.processors with
        | none => rw [hd] at hstep; cases hstep
        | some evs =>
          rw [hd] at hstep
          simp only [Option.map_some', Option.some.injEq] at hstep
          subst hstep
          simp [mapFind]
      | processor t' =>
        simp only [step, Option.some.injEq] at hstep
        subst hstep
        rw [processor_isSome_after t t' s₁, hih]
        constructor
        · rintro (⟨rfl, hx⟩ | hy)
          · exact Or.inl ⟨rfl, hx⟩
          · exact Or.inr ⟨by simp, hy⟩
        · rintro (⟨heq, hx⟩ | ⟨-, hy⟩)
          · have ht : t' = t := by
              injection heq
            exact Or.inl ⟨ht, hx⟩
          · exact Or.inr hy

/-- C8: in every state reachable by a sequence of public calls, a
handle exists in the instances map for type `t` exactly when some
`Processor(t)` call returned non-null since the last `Reset` (or since
creation); and the map never holds two entries for one type. -/
theorem impel_C8_instances_iff_success (ops : List Op)
    (s : EngineState) (hrun : run initState ops = some s)
    (t : ImpellerType) :
    ((mapFind t s.processors).isSome ↔
      ∃ pre post, ops = pre ++ Op.processor t :: post ∧
        Op.reset ∉ post ∧
        ∃ s₀, run initState pre = some s₀ ∧
          ((Processor t s₀).1).isSome) ∧
    (s.processors.map Prod.fst).Nodup :=
  ⟨processors_isSome_iff_success ops t s hrun,
    nodup_of_chain_lt (Reachable_inv ⟨ops, hrun⟩).pr_sorted⟩

/-- C8 witness: after registering type 1 and calling `Processor(1)`,
type 1 owns an instance, witnessed by the successful call at the second
position of the run. -/
theorem impel_C8_witness :
    (mapFind 1 (⟨[(1, 10)], [(1, 0)], 1, [Event.created 10 0]⟩ :
      EngineState).processors).isSome :=
  (impel_C8_instances_iff_success [Op.register 1 10, Op.processor 1]
      ⟨[(1, 10)], [(1, 0)], 1, [Event.created 10 0]⟩ (by decide)
      1).1.mpr
    ⟨[Op.register 1 10], [], rfl, by decide,
      ⟨[(1, 10)], [], 0, []⟩, by decide, by decide⟩
